import Mathlib

/-!
A shallow embedding of the photo-collage program `src/pyview.py`, together
with proofs about its grid-layout generator, photo transform rules, the
drag-and-drop swap protocol and the save/export key handler.

Conventions of the embedding:
* Python floats and Qt `qreal` values are modelled as `ℚ` (exact arithmetic);
  geometric quantities are the exact values the Python expressions compute.
* GUI-driven inputs (decoded pixmaps, file-dialog results, event modifiers,
  wheel deltas, viewport sizes) are explicit parameters of the functions that
  consume them.
* Mutable object state (`PhotoItem`, `PhotoFrameItem`, the module globals)
  is passed and returned explicitly.
-/

/- Module-level constants, src/pyview.py lines 26-36. -/

def RotOffset : ℚ := 5

def ScaleOffset : ℚ := 5 / 100

def SmallScaleOffset : ℚ := 1 / 100

def MaxZoom : ℚ := 2

def CollageAspectRatio : ℚ := 2 / 3

/-- Width of `CollageSize = QRectF(0, 0, 1024, 1024 * CollageAspectRatio)`
(src/pyview.py line 33). -/
def collageWidth : ℚ := 1024

/-- Height of `CollageSize` (src/pyview.py line 33): `1024 * (2.0 / 3.0)`. -/
def collageHeight : ℚ := 1024 * CollageAspectRatio

/-- Initial value of the module-level mutable global `OutFileName`
(src/pyview.py line 35). -/
def OutFileName : String := "out.png"

/-- A decoded pixel buffer (`QPixmap`); a null/empty pixmap (e.g. from an
unreadable file) has `width = 0` and `height = 0`. -/
structure Pixmap where
  width : ℚ
  height : ℚ
  deriving DecidableEq

/-- An axis-aligned rectangle, holding the exact values the Python code
passes to `QRect`/`QRectF`. -/
structure Rect where
  x : ℚ
  y : ℚ
  w : ℚ
  h : ℚ
  deriving DecidableEq

/-- The state of a `PhotoItem` (src/pyview.py lines 158-196): its source
filename and pixmap, its position (offset relative to the parent frame's
top-left), its transform origin, uniform scale and rotation in degrees. -/
structure PhotoItem where
  filename : String
  pixmap : Pixmap
  pos : ℚ × ℚ
  origin : ℚ × ℚ
  scale : ℚ
  rotation : ℚ
  deriving DecidableEq

/-- The state of a `PhotoFrameItem` (src/pyview.py lines 60-71): its local
rectangle and the optional photo it owns. -/
structure PhotoFrameItem where
  rect : Rect
  photo : Option PhotoItem
  deriving DecidableEq

/-- `PhotoItem.reset` (src/pyview.py lines 184-196): center the photo in
its parent frame (when it has one), set the transform origin to the pixmap
center, and reset scale to 1.0 and rotation to 0.0. `parentRect` is the
bounding rect of `self.parentItem()` (`none` when the photo has no parent). -/
def PhotoItem.reset (parentRect : Option Rect) (p : PhotoItem) : PhotoItem :=
  let p1 :=
    match parentRect with
    | some r =>
        { p with pos := (r.w / 2 - p.pixmap.width / 2, r.h / 2 - p.pixmap.height / 2) }
    | none => p
  { p1 with
    origin := (p1.pixmap.width / 2, p1.pixmap.height / 2)
    scale := 1
    rotation := 0 }

/-- `PhotoFrameItem.fitPhoto` (src/pyview.py lines 82-88): if the photo's
pixel width exceeds the frame's width, multiply its scale by
`frameWidth / photoWidth`. (The source assumes `self.photo` is set; a
photo-less frame is returned unchanged.) -/
def PhotoFrameItem.fitPhoto (f : PhotoFrameItem) : PhotoFrameItem :=
  match f.photo with
  | none => f
  | some p =>
      if p.pixmap.width > f.rect.w then
        { f with photo := some { p with scale := p.scale * (f.rect.w / p.pixmap.width) } }
      else f

/-- `PhotoFrameItem.setPhoto` (src/pyview.py lines 73-80): store the photo,
re-parent it to this frame and, when `reset` is true, reset its transform
and fit it to the frame. -/
def PhotoFrameItem.setPhoto (f : PhotoFrameItem) (photo : PhotoItem) (reset : Bool) :
    PhotoFrameItem :=
  let f1 : PhotoFrameItem := { f with photo := some photo }
  if reset then
    let f2 : PhotoFrameItem :=
      { f1 with photo := f1.photo.map (PhotoItem.reset (some f1.rect)) }
    f2.fitPhoto
  else f1

/-- The photo-swap branch of `PhotoFrameItem.dropEvent`
(src/pyview.py lines 140-152): `tgt` is the drop target (`self`), `src` is
the `PhotoFrameItem` resolved from the payload position. The source first
receives the target's photo, then the target receives the source's old
photo; both calls pass `reset=False`. Returns the updated `(src, tgt)`. -/
def PhotoFrameItem.dropEventSwap (tgt src : PhotoFrameItem) :
    PhotoFrameItem × PhotoFrameItem :=
  match src.photo, tgt.photo with
  | some photoItem, some tgtPhoto =>
      (src.setPhoto tgtPhoto false, tgt.setPhoto photoItem false)
  | _, _ => (src, tgt)

/-- `PhotoItem.setPhoto` (src/pyview.py lines 172-178): `pixmap` is the
buffer the codec decoded from `filename`. Only when it has positive width
are the filename and pixmap replaced and the transform reset; otherwise the
call is a no-op. -/
def PhotoItem.setPhoto (parentRect : Option Rect) (p : PhotoItem)
    (filename : String) (pixmap : Pixmap) : PhotoItem :=
  if pixmap.width > 0 then
    PhotoItem.reset parentRect { p with filename := filename, pixmap := pixmap }
  else p

/-- Qt keyboard modifier states distinguished by the source's handlers. -/
inductive Modifiers where
  | NoModifier
  | Shift
  | Ctrl
  | ShiftCtrl
  | Other
  deriving DecidableEq

/-- Python's `round` to an integer: round-half-to-even. -/
def roundHalfEven (q : ℚ) : ℤ :=
  if q - (Int.floor q : ℚ) < 1 / 2 then Int.floor q
  else if (1 : ℚ) / 2 < q - (Int.floor q : ℚ) then Int.floor q + 1
  else if Int.floor q % 2 = 0 then Int.floor q else Int.floor q + 1

/-- Python's `round(q, 2)`: round to two decimal places, half to even. -/
def pyround2 (q : ℚ) : ℚ := (roundHalfEven (q * 100) : ℚ) / 100

/-- `PhotoItem.wheelEvent` (src/pyview.py lines 203-234): compute candidate
scale and rotation from the wheel direction, then commit scale and/or
rotation according to the modifier state. -/
def PhotoItem.wheelEvent (p : PhotoItem) (delta : ℤ) (modifiers : Modifiers) :
    PhotoItem :=
  let scale0 := p.scale
  let rot0 := p.rotation
  let sr : ℚ × ℚ :=
    if delta > 0 then
      let rot := rot0 + RotOffset
      let scale :=
        if scale0 < MaxZoom then
          if pyround2 scale0 < pyround2 (ScaleOffset * 2) then scale0 + SmallScaleOffset
          else scale0 + ScaleOffset
        else scale0
      (scale, rot)
    else
      let rot := rot0 - RotOffset
      let scale :=
        if scale0 ≥ ScaleOffset * 2 then scale0 - ScaleOffset
        else if scale0 ≥ SmallScaleOffset * 2 then scale0 - SmallScaleOffset
        else scale0
      (scale, rot)
  match modifiers with
  | Modifiers.NoModifier => { p with scale := sr.1 }
  | Modifiers.Shift => { p with rotation := sr.2 }
  | Modifiers.ShiftCtrl => { p with scale := sr.1, rotation := sr.2 }
  | _ => p

/-- The tile rectangles generated by `createGridCollage`
(src/pyview.py lines 458-464): outer loop over the `numx` columns, inner
loop over the `numy` rows. The Python expressions compute the qreal values
`x * photoWidth`, `y * photoHeight`, `photoWidth = collageWidth/numx` and
`photoHeight = collageHeight/numy`, but pass them to `QRect`, an
integer rectangle; the binding converts each qreal argument by C truncation
toward zero (= `Int.floor` for these nonnegative values), exactly as for
the `QImage` constructor in the export handler. (`CollageSize` itself is a
`QRectF` and keeps its exact qreal height.) -/
def gridRects (numx numy : ℕ) : List Rect :=
  let photoWidth := collageWidth / (numx : ℚ)
  let photoHeight := collageHeight / (numy : ℚ)
  (List.range numx).flatMap fun (x : ℕ) =>
    (List.range numy).map fun (y : ℕ) =>
      { x := ((Int.floor ((x : ℚ) * photoWidth) : ℤ) : ℚ),
        y := ((Int.floor ((y : ℚ) * photoHeight) : ℤ) : ℚ),
        w := ((Int.floor photoWidth : ℤ) : ℚ),
        h := ((Int.floor photoHeight : ℤ) : ℚ) }

/-- The tile rectangle `createGridCollage` generates at index `i` of the
enumeration order: column `i / numy`, row `i % numy` (column-major), with
the same `QRect` integer truncation of each coordinate as `gridRects`. -/
def gridRectAt (numx numy i : ℕ) : Rect :=
  { x := ((Int.floor (((i / numy : ℕ) : ℚ) * (collageWidth / (numx : ℚ))) : ℤ) : ℚ)
    y := ((Int.floor (((i % numy : ℕ) : ℚ) * (collageHeight / (numy : ℚ))) : ℤ) : ℚ)
    w := ((Int.floor (collageWidth / (numx : ℚ)) : ℤ) : ℚ)
    h := ((Int.floor (collageHeight / (numy : ℚ)) : ℤ) : ℚ) }

/-- Membership of a point in a rectangle, half-open on the far edges. -/
def Rect.contains (r : Rect) (p : ℚ × ℚ) : Prop :=
  r.x ≤ p.1 ∧ p.1 < r.x + r.w ∧ r.y ≤ p.2 ∧ p.2 < r.y + r.h

/-- Membership of a point in the Canvas rectangle `CollageSize`. -/
def canvasContains (p : ℚ × ℚ) : Prop :=
  0 ≤ p.1 ∧ p.1 < collageWidth ∧ 0 ≤ p.2 ∧ p.2 < collageHeight

instance (r : Rect) (p : ℚ × ℚ) : Decidable (r.contains p) := by
  unfold Rect.contains; infer_instance

instance (p : ℚ × ℚ) : Decidable (canvasContains p) := by
  unfold canvasContains; infer_instance

/-- `LoopIter` (src/pyview.py lines 400-412): infinite iterator over a list,
wrapping to the first element after the last. -/
structure LoopIter where
  i : ℕ
  l : List String
  deriving DecidableEq

/-- `LoopIter.next` (src/pyview.py lines 409-412): return the current
element and advance the index modulo the list length. -/
def LoopIter.next (it : LoopIter) : String × LoopIter :=
  (it.l.getD it.i "", { it with i := (it.i + 1) % it.l.length })

/-- The `scene.addPhoto(rect, f.next())` consumption loop shared by all
collage builders (src/pyview.py lines 389-396 and 458-464): pair each
generated rectangle, in generation order, with the next file from the
iterator. -/
def addPhotos : List Rect → LoopIter → List (Rect × String)
  | [], _ => []
  | r :: rs, it => (r, (LoopIter.next it).1) :: addPhotos rs (LoopIter.next it).2

/-- `createGridCollage(scene, numx, numy)` (src/pyview.py lines 458-464)
with the global `filenames` made explicit: the generated tiles paired with
the cyclically consumed input files. -/
def createGridCollage (numx numy : ℕ) (files : List String) : List (Rect × String) :=
  addPhotos (gridRects numx numy) { i := 0, l := files }

/-- The offscreen buffer the save handler creates and hands to
`image.save` (src/pyview.py lines 305-310):
`QImage(CollageSize.width(), CollageSize.height(), QImage.Format_RGB32)`.
`QImage` takes integer pixel dimensions; the binding converts the `qreal`
arguments by C truncation toward zero (= `Int.floor` for these nonnegative
values). -/
structure ExportImage where
  width : ℤ
  height : ℤ
  path : String
  deriving DecidableEq

/-- Observable outcome of one `S`-key release in `ImageView.keyReleaseEvent`. -/
structure SaveEventResult where
  outFileName : String
  prompted : Bool
  image : Option ExportImage
  deriving DecidableEq

/-- The `Qt.Key_S` branch of `ImageView.keyReleaseEvent`
(src/pyview.py lines 294-313). `out0` is the current value of the global
`OutFileName`, `dialogResult` is what `QFileDialog.getSaveFileName` would
return if the dialog were shown. `viewportSize` models the view's current
viewport dimensions: the handler's buffer size and save path never read
them — the buffer dimensions come from the fixed `CollageSize` and the path
from the global. -/
def ImageView.keyReleaseS (viewportSize : ℚ × ℚ) (out0 : String)
    (modifiers : Modifiers) (dialogResult : String) : SaveEventResult :=
  let _ := viewportSize
  if (modifiers = Modifiers.NoModifier ∧ out0 = "") ∨ modifiers = Modifiers.Shift then
    { outFileName := dialogResult
      prompted := true
      image := some
        { width := Int.floor collageWidth
          height := Int.floor collageHeight
          path := dialogResult } }
  else if modifiers = Modifiers.Ctrl then
    { outFileName := out0, prompted := false, image := none }
  else
    { outFileName := out0
      prompted := false
      image := some
        { width := Int.floor collageWidth
          height := Int.floor collageHeight
          path := out0 } }

/- Concrete example states used by the witness theorems. -/

/-- An example photo: an 800 × 600 image in a non-identity transform state. -/
def photoA : PhotoItem :=
  { filename := "a.png", pixmap := { width := 800, height := 600 },
    pos := (1, 2), origin := (400, 300), scale := 3 / 2, rotation := 45 }

/-- A second example photo with a different transform state. -/
def photoB : PhotoItem :=
  { filename := "b.png", pixmap := { width := 640, height := 480 },
    pos := (5, 6), origin := (320, 240), scale := 1 / 2, rotation := -30 }

/-- An example frame owning `photoA`. -/
def frameA : PhotoFrameItem :=
  { rect := { x := 0, y := 0, w := 256, h := 341 }, photo := some photoA }

/-- An example frame owning `photoB`. -/
def frameB : PhotoFrameItem :=
  { rect := { x := 256, y := 0, w := 256, h := 341 }, photo := some photoB }

/-- A 1600 × 1200 photo, wider than a 4-column grid tile. -/
def photoWide : PhotoItem :=
  { filename := "wide.png", pixmap := { width := 1600, height := 1200 },
    pos := (0, 0), origin := (0, 0), scale := 1, rotation := 0 }

/-- An empty tile of a 4 × 2 grid of the canvas: `QRect` width
256 = 1024/4 (exact), height 341 = trunc((1024·2/3)/2). -/
def gridFrame : PhotoFrameItem :=
  { rect := { x := 0, y := 0, w := 256, h := 341 }, photo := none }

/-- The photo obtained by attaching `photoWide` to `gridFrame` with reset:
reset makes its scale 1, then `fitPhoto` scales it down to 256/1600. -/
def fittedPhoto : PhotoItem :=
  ((gridFrame.setPhoto photoWide true).photo).getD photoWide

/- Helper lemmas about the wheel handler's scale computation. -/

/-- The scale a no-modifier zoom-in wheel event commits. -/
lemma wheelEvent_scale_in (p : PhotoItem) :
    (PhotoItem.wheelEvent p 1 Modifiers.NoModifier).scale =
      if p.scale < MaxZoom then
        if pyround2 p.scale < pyround2 (ScaleOffset * 2) then p.scale + SmallScaleOffset
        else p.scale + ScaleOffset
      else p.scale := by
  simp [PhotoItem.wheelEvent]

/-- The scale a no-modifier zoom-out wheel event commits. -/
lemma wheelEvent_scale_out (p : PhotoItem) :
    (PhotoItem.wheelEvent p (-1) Modifiers.NoModifier).scale =
      if ScaleOffset * 2 ≤ p.scale then p.scale - ScaleOffset
      else if SmallScaleOffset * 2 ≤ p.scale then p.scale - SmallScaleOffset
      else p.scale := by
  simp [PhotoItem.wheelEvent]

/-- A no-modifier wheel event changes only the scale. -/
lemma wheelEvent_nomod_eta (p : PhotoItem) (delta : ℤ) :
    PhotoItem.wheelEvent p delta Modifiers.NoModifier =
      { p with scale := (PhotoItem.wheelEvent p delta Modifiers.NoModifier).scale } := by
  simp [PhotoItem.wheelEvent]

/-- C1: a completed swap drop exchanges the two frames' photos by reference
with no reset invoked: the target ends up owning the source's old photo and
vice versa, each photo's offset, scale and rotation travel with it
unchanged (the very same `PhotoItem` value moves), the frames' rectangles
are untouched, and performing the same swap a second time restores both
frames exactly to their pre-swap states. -/
theorem swap_exchanges_and_involutive
    (src tgt : PhotoFrameItem) (ps pt : PhotoItem)
    (hs : src.photo = some ps) (ht : tgt.photo = some pt) :
    (PhotoFrameItem.dropEventSwap tgt src).1.photo = some pt ∧
    (PhotoFrameItem.dropEventSwap tgt src).2.photo = some ps ∧
    (PhotoFrameItem.dropEventSwap tgt src).1.rect = src.rect ∧
    (PhotoFrameItem.dropEventSwap tgt src).2.rect = tgt.rect ∧
    PhotoFrameItem.dropEventSwap (PhotoFrameItem.dropEventSwap tgt src).2
      (PhotoFrameItem.dropEventSwap tgt src).1 = (src, tgt) := by
  obtain ⟨srect, sphoto⟩ := src
  obtain ⟨trect, tphoto⟩ := tgt
  simp only at hs ht
  subst hs ht
  simp [PhotoFrameItem.dropEventSwap, PhotoFrameItem.setPhoto]

/-- Witness for C1 at two concrete frames with distinct photos. -/
theorem swap_exchanges_and_involutive_witness :
    frameA.photo = some photoA ∧ frameB.photo = some photoB ∧
    ((PhotoFrameItem.dropEventSwap frameB frameA).1.photo = some photoB ∧
     (PhotoFrameItem.dropEventSwap frameB frameA).2.photo = some photoA ∧
     (PhotoFrameItem.dropEventSwap frameB frameA).1.rect = frameA.rect ∧
     (PhotoFrameItem.dropEventSwap frameB frameA).2.rect = frameB.rect ∧
     PhotoFrameItem.dropEventSwap (PhotoFrameItem.dropEventSwap frameB frameA).2
       (PhotoFrameItem.dropEventSwap frameB frameA).1 = (frameA, frameB)) :=
  ⟨rfl, rfl, swap_exchanges_and_involutive frameA frameB photoA photoB rfl rfl⟩

/-- C5: `reset` with an owning frame always yields scale 1.0, rotation 0.0
and the centering offset `(frameWidth/2 - photoWidth/2,
frameHeight/2 - photoHeight/2)`, for every prior transform state, leaving
the filename and pixel source untouched. -/
theorem reset_centers (p : PhotoItem) (r : Rect) :
    (PhotoItem.reset (some r) p).scale = 1 ∧
    (PhotoItem.reset (some r) p).rotation = 0 ∧
    (PhotoItem.reset (some r) p).pos =
      (r.w / 2 - p.pixmap.width / 2, r.h / 2 - p.pixmap.height / 2) ∧
    (PhotoItem.reset (some r) p).filename = p.filename ∧
    (PhotoItem.reset (some r) p).pixmap = p.pixmap :=
  ⟨rfl, rfl, rfl, rfl, rfl⟩

/-- C8: loading a new pixel source is guarded by the decoded buffer's
width: a zero-width (empty/null) buffer makes the call a complete no-op —
filename, pixmap, offset, scale and rotation all unchanged — while a
positive-width buffer replaces the source and resets the transform. -/
theorem setPhoto_invalid_noop (parentRect : Option Rect) (p : PhotoItem)
    (fname : String) (pm : Pixmap) :
    (pm.width ≤ 0 → PhotoItem.setPhoto parentRect p fname pm = p) ∧
    (0 < pm.width →
      PhotoItem.setPhoto parentRect p fname pm =
        PhotoItem.reset parentRect { p with filename := fname, pixmap := pm } ∧
      (PhotoItem.setPhoto parentRect p fname pm).filename = fname ∧
      (PhotoItem.setPhoto parentRect p fname pm).pixmap = pm ∧
      (PhotoItem.setPhoto parentRect p fname pm).scale = 1 ∧
      (PhotoItem.setPhoto parentRect p fname pm).rotation = 0) := by
  constructor
  · intro h
    simp [PhotoItem.setPhoto, not_lt.mpr h]
  · intro h
    have heq : PhotoItem.setPhoto parentRect p fname pm =
        PhotoItem.reset parentRect { p with filename := fname, pixmap := pm } := by
      simp [PhotoItem.setPhoto, h]
    refine ⟨heq, ?_, ?_, ?_, ?_⟩ <;> rw [heq] <;> cases parentRect <;>
      simp [PhotoItem.reset]

/-- Witness for C8: a null pixmap leaves `photoA` exactly as it was. -/
theorem setPhoto_invalid_noop_witness :
    ({ width := 0, height := 0 } : Pixmap).width ≤ 0 ∧
    PhotoItem.setPhoto (some gridFrame.rect) photoA "new.png"
      { width := 0, height := 0 } = photoA :=
  ⟨by norm_num,
   (setPhoto_invalid_noop (some gridFrame.rect) photoA "new.png"
      { width := 0, height := 0 }).1 (by norm_num)⟩

/-- C9: attaching a photo with `reset=True` first resets the scale to 1 and
then fits: when the pixel width exceeds the frame width the final scale is
`frameWidth/photoWidth`, which is strictly below 1; otherwise it stays 1. -/
theorem setPhoto_reset_fits (f : PhotoFrameItem) (p : PhotoItem)
    (hw : 0 ≤ f.rect.w) :
    ((f.setPhoto p true).photo.map fun q => q.scale) =
      some (if f.rect.w < p.pixmap.width then f.rect.w / p.pixmap.width else 1) ∧
    (f.rect.w < p.pixmap.width → f.rect.w / p.pixmap.width < 1) := by
  constructor
  · by_cases hlt : f.rect.w < p.pixmap.width
    · simp [PhotoFrameItem.setPhoto, PhotoFrameItem.fitPhoto, PhotoItem.reset,
        hlt, gt_iff_lt, one_mul]
    · simp [PhotoFrameItem.setPhoto, PhotoFrameItem.fitPhoto, PhotoItem.reset,
        hlt, gt_iff_lt]
  · intro hlt
    have hpw : 0 < p.pixmap.width := lt_of_le_of_lt hw hlt
    exact (div_lt_one hpw).mpr hlt

/-- Witness for C9: the 1600-wide photo in the 256-wide tile. -/
theorem setPhoto_reset_fits_witness :
    (0 : ℚ) ≤ gridFrame.rect.w ∧
    (((gridFrame.setPhoto photoWide true).photo.map fun q => q.scale) =
      some (if gridFrame.rect.w < photoWide.pixmap.width then
        gridFrame.rect.w / photoWide.pixmap.width else 1) ∧
     (gridFrame.rect.w < photoWide.pixmap.width →
       gridFrame.rect.w / photoWide.pixmap.width < 1)) :=
  ⟨by norm_num [gridFrame], setPhoto_reset_fits gridFrame photoWide (by norm_num [gridFrame])⟩

/-- C10: a no-modifier zoom-out decreases the scale by 0.05 exactly when
the current scale is at least 0.10, by 0.01 exactly when it is in
[0.02, 0.10), and otherwise leaves it unchanged; the result is never below
`min scale 0.01`, and a positive scale stays positive under arbitrarily
many zoom-out gestures. -/
theorem zoom_out_scale_floor (p : PhotoItem) :
    (PhotoItem.wheelEvent p (-1) Modifiers.NoModifier).scale =
      (if ScaleOffset * 2 ≤ p.scale then p.scale - ScaleOffset
       else if SmallScaleOffset * 2 ≤ p.scale then p.scale - SmallScaleOffset
       else p.scale) ∧
    min p.scale SmallScaleOffset ≤
      (PhotoItem.wheelEvent p (-1) Modifiers.NoModifier).scale ∧
    (0 < p.scale → ∀ n : ℕ,
      0 < ((fun q => PhotoItem.wheelEvent q (-1) Modifiers.NoModifier)^[n] p).scale) := by
  have hstep : ∀ q : PhotoItem, 0 < q.scale →
      0 < (PhotoItem.wheelEvent q (-1) Modifiers.NoModifier).scale := by
    intro q hq
    rw [wheelEvent_scale_out]
    split_ifs with h1 h2
    · simp only [ScaleOffset] at h1 ⊢
      linarith
    · simp only [SmallScaleOffset] at h2 ⊢
      linarith
    · exact hq
  refine ⟨wheelEvent_scale_out p, ?_, ?_⟩
  · rw [wheelEvent_scale_out]
    split_ifs with h1 h2
    · calc min p.scale SmallScaleOffset ≤ SmallScaleOffset := min_le_right _ _
        _ ≤ p.scale - ScaleOffset := by
            simp only [ScaleOffset, SmallScaleOffset] at h1 ⊢
            linarith
    · calc min p.scale SmallScaleOffset ≤ SmallScaleOffset := min_le_right _ _
        _ ≤ p.scale - SmallScaleOffset := by
            simp only [SmallScaleOffset] at h2 ⊢
            linarith
    · exact min_le_left _ _
  · intro hp n
    induction n with
    | zero => exact hp
    | succ n ih =>
        rw [Function.iterate_succ_apply']
        exact hstep _ ih

/-- Witness for C10 at a photo of scale 1/2. -/
theorem zoom_out_scale_floor_witness :
    0 < photoB.scale ∧
    ∀ n : ℕ,
      0 < ((fun q => PhotoItem.wheelEvent q (-1) Modifiers.NoModifier)^[n] photoB).scale :=
  ⟨by norm_num [photoB], (zoom_out_scale_floor photoB).2.2 (by norm_num [photoB])⟩

/-- Python's 2-decimal round is the identity on integer multiples of 1/100. -/
lemma pyround2_int_div (n : ℤ) : pyround2 ((n : ℚ) / 100) = (n : ℚ) / 100 := by
  unfold pyround2 roundHalfEven
  have h1 : ((n : ℚ) / 100) * 100 = (n : ℚ) := by
    field_simp
  rw [h1, Int.floor_intCast]
  norm_num

/-- One no-modifier zoom-in gesture from a scale that is an `n/100` multiple
with `10 ≤ n` and below MaxZoom takes the coarse step. -/
lemma wheel_in_step_coarse (q : PhotoItem) (n : ℤ) (hs : q.scale = (n : ℚ) / 100)
    (h10 : 10 ≤ n) (h2 : q.scale < MaxZoom) :
    (PhotoItem.wheelEvent q 1 Modifiers.NoModifier).scale = q.scale + 5 / 100 := by
  have hcast : (10 : ℚ) ≤ (n : ℚ) := by exact_mod_cast h10
  have hp : pyround2 (ScaleOffset * 2) = 1 / 10 := by
    have h : ScaleOffset * 2 = ((10 : ℤ) : ℚ) / 100 := by norm_num [ScaleOffset]
    rw [h, pyround2_int_div]
    norm_num
  rw [wheelEvent_scale_in, if_pos h2, hs, pyround2_int_div, hp, if_neg]
  · norm_num [ScaleOffset]
  · rw [not_lt]
    linarith

/-- The zoom-in orbit of the fitted photo: after `k ≤ 37` gestures its
scale is `(16 + 5 k)/100`. -/
lemma fitted_orbit (k : ℕ) (hk : k ≤ 37) :
    ((fun q => PhotoItem.wheelEvent q 1 Modifiers.NoModifier)^[k] fittedPhoto).scale
      = ((16 + 5 * (k : ℤ) : ℤ) : ℚ) / 100 := by
  induction k with
  | zero =>
      simp only [Function.iterate_zero, id]
      show fittedPhoto.scale = _
      norm_num [fittedPhoto, gridFrame, photoWide, PhotoFrameItem.setPhoto,
        PhotoFrameItem.fitPhoto, PhotoItem.reset]
  | succ k ih =>
      have hk37 : k ≤ 37 := Nat.le_of_succ_le hk
      have hkle : k ≤ 36 := by omega
      rw [Function.iterate_succ_apply']
      rw [wheel_in_step_coarse _ (16 + 5 * (k : ℤ)) (ih hk37) (by omega) ?_]
      · rw [ih hk37]
        push_cast
        ring
      · rw [ih hk37]
        have : ((16 + 5 * (k : ℤ) : ℤ) : ℚ) ≤ 196 := by
          have : (16 + 5 * (k : ℤ) : ℤ) ≤ 196 := by omega
          exact_mod_cast this
        simp only [MaxZoom]
        linarith

/-- C2 counterexample: `fitPhoto` can leave a photo at scale 0.16 (a
1600-pixel-wide photo in a 256-wide tile); 37 no-modifier zoom-in gestures
then drive the scale to 2.01, strictly above MaxZoom = 2.0 — the guard
`scale < MaxZoom` is checked before adding the step, so the result can
overshoot 2.0. -/
theorem zoom_in_overshoots_maxzoom :
    fittedPhoto.scale = 16 / 100 ∧
    ((fun q => PhotoItem.wheelEvent q 1 Modifiers.NoModifier)^[37] fittedPhoto).scale
      = 201 / 100 ∧
    MaxZoom < 201 / 100 := by
  refine ⟨?_, ?_, by norm_num [MaxZoom]⟩
  · have h := fitted_orbit 0 (by omega)
    simpa using h
  · have h := fitted_orbit 37 le_rfl
    rw [h]
    norm_num

/-- C2 (amended): a no-modifier zoom-in adds its step (at most
ScaleOffset = 0.05) only while the current scale is strictly below
MaxZoom = 2.0, so the scale after any number of zoom-in gestures stays
strictly below MaxZoom + ScaleOffset = 2.05 — but it can exceed 2.0 by up
to one step. -/
theorem zoom_in_bounded (p : PhotoItem) :
    (MaxZoom ≤ p.scale →
      (PhotoItem.wheelEvent p 1 Modifiers.NoModifier).scale = p.scale) ∧
    (p.scale < MaxZoom →
      p.scale < (PhotoItem.wheelEvent p 1 Modifiers.NoModifier).scale ∧
      (PhotoItem.wheelEvent p 1 Modifiers.NoModifier).scale ≤ p.scale + ScaleOffset) ∧
    ∀ n : ℕ, p.scale < MaxZoom + ScaleOffset →
      ((fun q => PhotoItem.wheelEvent q 1 Modifiers.NoModifier)^[n] p).scale
        < MaxZoom + ScaleOffset := by
  have hstep : ∀ q : PhotoItem, q.scale < MaxZoom + ScaleOffset →
      (PhotoItem.wheelEvent q 1 Modifiers.NoModifier).scale < MaxZoom + ScaleOffset := by
    intro q hq
    rw [wheelEvent_scale_in]
    split_ifs with h1 h2
    · simp only [MaxZoom, ScaleOffset, SmallScaleOffset] at h1 ⊢
      linarith
    · simp only [MaxZoom, ScaleOffset] at h1 ⊢
      linarith
    · exact hq
  refine ⟨?_, ?_, ?_⟩
  · intro h
    rw [wheelEvent_scale_in, if_neg (not_lt.mpr h)]
  · intro h
    rw [wheelEvent_scale_in, if_pos h]
    split_ifs with h2
    · constructor
      · simp only [SmallScaleOffset]
        linarith
      · simp only [SmallScaleOffset, ScaleOffset]
        linarith
    · exact ⟨by simp only [ScaleOffset]; linarith, le_refl _⟩
  · intro n hp
    induction n with
    | zero => exact hp
    | succ n ih =>
        rw [Function.iterate_succ_apply']
        exact hstep _ ih

/-- Witness for C2 (amended) at `photoA` (scale 3/2 < 2). -/
theorem zoom_in_bounded_witness :
    photoA.scale < MaxZoom ∧
    (photoA.scale < (PhotoItem.wheelEvent photoA 1 Modifiers.NoModifier).scale ∧
     (PhotoItem.wheelEvent photoA 1 Modifiers.NoModifier).scale ≤
       photoA.scale + ScaleOffset) :=
  ⟨by norm_num [photoA, MaxZoom],
   (zoom_in_bounded photoA).2.1 (by norm_num [photoA, MaxZoom])⟩

/- Facts about the export buffer dimensions. -/

lemma floor_collageWidth : Int.floor collageWidth = 1024 := by
  rw [show collageWidth = ((1024 : ℤ) : ℚ) by norm_num [collageWidth]]
  exact Int.floor_intCast 1024

lemma floor_collageHeight : Int.floor collageHeight = 682 := by
  rw [show collageHeight = (2048 : ℚ) / 3 by norm_num [collageHeight, CollageAspectRatio]]
  rw [Int.floor_eq_iff]
  constructor <;> norm_num

/-- Whenever the `S`-key handler produces a buffer at all, it is the fixed
1024 × 682 buffer targeted at the handler's resulting output path. -/
lemma keyReleaseS_image (v : ℚ × ℚ) (out0 : String) (m : Modifiers) (d : String) :
    (ImageView.keyReleaseS v out0 m d).image = none ∨
    (ImageView.keyReleaseS v out0 m d).image =
      some { width := 1024, height := 682,
             path := (ImageView.keyReleaseS v out0 m d).outFileName } := by
  unfold ImageView.keyReleaseS
  split_ifs with h1 h2
  · right
    simp [floor_collageWidth, floor_collageHeight]
  · left
    rfl
  · right
    simp [floor_collageWidth, floor_collageHeight]

/-- C3 counterexample: the buffer handed to the encoder is 1024 × 682 — the
`qreal` canvas height `1024 · (2/3) = 682.67` is truncated by the integer
`QImage` constructor — whereas the claim states the height
`round(1024 · 2/3) = 683`. -/
theorem export_uses_truncated_height :
    (ImageView.keyReleaseS (800, 600) OutFileName Modifiers.NoModifier "ignored").image =
      some { width := 1024, height := 682, path := OutFileName } ∧
    round ((1024 : ℚ) * (2 / 3)) = 683 ∧ (682 : ℤ) ≠ 683 := by
  refine ⟨?_, ?_, by decide⟩
  · simp [ImageView.keyReleaseS, OutFileName, floor_collageWidth, floor_collageHeight]
  · rw [round_eq, show (1024 : ℚ) * (2 / 3) + 1 / 2 = 4099 / 6 by norm_num,
      Int.floor_eq_iff]
    constructor <;> norm_num

/-- C3 (amended): exporting always renders into an offscreen buffer of the
fixed resolution 1024 × 682 (`CollageSize`'s width, and its height
1024·(2/3) truncated — not rounded — to an integer pixel count),
independent of the viewport size, and the buffer is handed to the encoder
at the handler's resulting stored output path. -/
theorem export_fixed_resolution (v vp : ℚ × ℚ) (out0 : String) (m : Modifiers)
    (d : String) :
    ImageView.keyReleaseS v out0 m d = ImageView.keyReleaseS vp out0 m d ∧
    ∀ img : ExportImage, (ImageView.keyReleaseS v out0 m d).image = some img →
      img.width = 1024 ∧ img.height = 682 ∧
      img.path = (ImageView.keyReleaseS v out0 m d).outFileName := by
  refine ⟨rfl, ?_⟩
  intro img himg
  rcases keyReleaseS_image v out0 m d with h | h
  · rw [h] at himg
    exact absurd himg (by simp)
  · rw [h] at himg
    obtain rfl := Option.some.inj himg
    exact ⟨rfl, rfl, rfl⟩

/-- Witness for C3 (amended): a plain save with the default path. -/
theorem export_fixed_resolution_witness :
    (ImageView.keyReleaseS (800, 600) OutFileName Modifiers.NoModifier "x").image =
      some { width := 1024, height := 682, path := OutFileName } ∧
    (({ width := 1024, height := 682, path := OutFileName } : ExportImage).width = 1024 ∧
     ({ width := 1024, height := 682, path := OutFileName } : ExportImage).height = 682 ∧
     ({ width := 1024, height := 682, path := OutFileName } : ExportImage).path =
       (ImageView.keyReleaseS (800, 600) OutFileName Modifiers.NoModifier "x").outFileName) :=
  ⟨by simp [ImageView.keyReleaseS, OutFileName, floor_collageWidth, floor_collageHeight],
   (export_fixed_resolution (800, 600) (640, 480) OutFileName Modifiers.NoModifier "x").2
     { width := 1024, height := 682, path := OutFileName }
     (by simp [ImageView.keyReleaseS, OutFileName, floor_collageWidth, floor_collageHeight])⟩

/-- C4 counterexample: in the program's initial state no output path has
ever been chosen, yet the stored `OutFileName` is the default `"out.png"`,
so a plain (no-modifier) save does not prompt — it silently saves to the
default path. -/
theorem plain_save_uses_default_without_prompt :
    OutFileName = "out.png" ∧
    (ImageView.keyReleaseS (800, 600) OutFileName Modifiers.NoModifier
      "chosen.png").prompted = false ∧
    ((ImageView.keyReleaseS (800, 600) OutFileName Modifiers.NoModifier
      "chosen.png").image.map fun i => i.path) = some OutFileName := by
  refine ⟨rfl, ?_, ?_⟩ <;> simp [ImageView.keyReleaseS, OutFileName]

/-- C4 (amended): a plain save prompts iff the stored output path is the
empty string (not iff no path was ever chosen): when the stored path is
nonempty it is silently reused. Save-as (shift) always prompts and stores
the dialog result for subsequent saves. The initial stored path is the
nonempty default "out.png", so the very first plain save does not prompt. -/
theorem save_prompt_rule (v : ℚ × ℚ) (out0 d : String) :
    ((ImageView.keyReleaseS v out0 Modifiers.NoModifier d).prompted = true ↔ out0 = "") ∧
    (out0 ≠ "" →
      (ImageView.keyReleaseS v out0 Modifiers.NoModifier d).outFileName = out0 ∧
      ((ImageView.keyReleaseS v out0 Modifiers.NoModifier d).image.map fun i => i.path) =
        some out0) ∧
    (ImageView.keyReleaseS v out0 Modifiers.Shift d).prompted = true ∧
    (ImageView.keyReleaseS v out0 Modifiers.Shift d).outFileName = d ∧
    ((ImageView.keyReleaseS v out0 Modifiers.Shift d).image.map fun i => i.path) =
      some d ∧
    OutFileName ≠ "" := by
  refine ⟨?_, ?_, ?_, ?_, ?_, by simp [OutFileName]⟩
  · unfold ImageView.keyReleaseS
    by_cases h : out0 = "" <;> simp [h]
  · intro h
    unfold ImageView.keyReleaseS
    simp [h]
  · unfold ImageView.keyReleaseS
    simp
  · unfold ImageView.keyReleaseS
    simp
  · unfold ImageView.keyReleaseS
    simp

/-- Witness for C4 (amended): an explicitly stored nonempty path is reused. -/
theorem save_prompt_rule_witness :
    ("saved.png" ≠ "") ∧
    ((ImageView.keyReleaseS (800, 600) "saved.png" Modifiers.NoModifier "d").outFileName
        = "saved.png" ∧
     ((ImageView.keyReleaseS (800, 600) "saved.png" Modifiers.NoModifier "d").image.map
        fun i => i.path) = some "saved.png") :=
  ⟨by simp, (save_prompt_rule (800, 600) "saved.png" "d").2.1 (by simp)⟩

/- Grid layout: list combinatorics and 1-D tiling facts. -/

/-- A column-major double loop over `nx` columns and `ny` rows enumerates
exactly the indices `0 ≤ i < nx*ny`, with column `i / ny` and row `i % ny`. -/
lemma flatMap_range_eq_map_range {α : Type} (f : ℕ → ℕ → α) (nx ny : ℕ) :
    (List.range nx).flatMap (fun x => (List.range ny).map (f x)) =
      (List.range (nx * ny)).map (fun i => f (i / ny) (i % ny)) := by
  induction nx with
  | zero => simp
  | succ n ih =>
      by_cases hy : ny = 0
      · subst hy
        simp
      · have hy0 : 0 < ny := Nat.pos_of_ne_zero hy
        rw [List.range_succ, List.flatMap_append, ih,
          show (n + 1) * ny = n * ny + ny by ring, List.range_add, List.map_append]
        congr 1
        simp only [List.flatMap_cons, List.flatMap_nil, List.append_nil, List.map_map]
        apply List.map_congr_left
        intro a ha
        have ha2 : a < ny := List.mem_range.mp ha
        have hdiv : (n * ny + a) / ny = n := by
          rw [mul_comm, Nat.mul_add_div hy0, Nat.div_eq_of_lt ha2, Nat.add_zero]
        have hmod : (n * ny + a) % ny = a := by
          rw [mul_comm, Nat.mul_add_mod, Nat.mod_eq_of_lt ha2]
        simp [Function.comp, hdiv, hmod]

/-- The generated tile list is the column-major enumeration of `gridRectAt`. -/
lemma gridRects_eq_map (numx numy : ℕ) :
    gridRects numx numy = (List.range (numx * numy)).map (gridRectAt numx numy) := by
  unfold gridRects gridRectAt
  exact flatMap_range_eq_map_range _ numx numy

/-- A rational lying in `[z, z+1)` has floor `z`. -/
lemma floor_rat_eq (z : ℤ) (q : ℚ) (h1 : (z : ℚ) ≤ q) (h2 : q < (z : ℚ) + 1) :
    Int.floor q = z :=
  Int.floor_eq_iff.mpr ⟨h1, h2⟩

/-- Two truncated tiles of the 1-D subdivision of step `s` cannot share a
point: tile `k` spans `[⌊k·s⌋, ⌊k·s⌋ + ⌊s⌋)`, and for `k < kp` its upper
end stays at or below tile `kp`'s lower end. -/
lemma trunc_tile1d_disjoint {k kp : ℕ} {s t : ℚ} (hs : 0 ≤ s) (hlt : k < kp)
    (h2 : t < ((Int.floor ((k : ℚ) * s) : ℤ) : ℚ) + ((Int.floor s : ℤ) : ℚ))
    (h1p : ((Int.floor ((kp : ℚ) * s) : ℤ) : ℚ) ≤ t) : False := by
  have hstep : Int.floor ((k : ℚ) * s) + Int.floor s ≤ Int.floor ((k : ℚ) * s + s) := by
    apply Int.le_floor.mpr
    push_cast
    have hks := Int.floor_le ((k : ℚ) * s)
    have hss := Int.floor_le s
    linarith
  have hmono : Int.floor ((k : ℚ) * s + s) ≤ Int.floor ((kp : ℚ) * s) := by
    apply Int.floor_le_floor
    have hk1 : ((k : ℚ) + 1) ≤ (kp : ℚ) := by exact_mod_cast hlt
    calc (k : ℚ) * s + s = ((k : ℚ) + 1) * s := by ring
      _ ≤ (kp : ℚ) * s := mul_le_mul_of_nonneg_right hk1 hs
  have hcontra : t < t := by
    calc t < ((Int.floor ((k : ℚ) * s) : ℤ) : ℚ) + ((Int.floor s : ℤ) : ℚ) := h2
      _ = ((Int.floor ((k : ℚ) * s) + Int.floor s : ℤ) : ℚ) := by push_cast; ring
      _ ≤ ((Int.floor ((k : ℚ) * s + s) : ℤ) : ℚ) := by exact_mod_cast hstep
      _ ≤ ((Int.floor ((kp : ℚ) * s) : ℤ) : ℚ) := by exact_mod_cast hmono
      _ ≤ t := h1p
  exact absurd hcontra (lt_irrefl t)

/-- A point can lie in the truncated 1-D tile of at most one index. -/
lemma trunc_tile1d_unique {k kp : ℕ} {s t : ℚ} (hs : 0 ≤ s)
    (h1 : ((Int.floor ((k : ℚ) * s) : ℤ) : ℚ) ≤ t)
    (h2 : t < ((Int.floor ((k : ℚ) * s) : ℤ) : ℚ) + ((Int.floor s : ℤ) : ℚ))
    (h1p : ((Int.floor ((kp : ℚ) * s) : ℤ) : ℚ) ≤ t)
    (h2p : t < ((Int.floor ((kp : ℚ) * s) : ℤ) : ℚ) + ((Int.floor s : ℤ) : ℚ)) :
    k = kp := by
  rcases Nat.lt_trichotomy k kp with hlt | heq | hgt
  · exact absurd (trunc_tile1d_disjoint hs hlt h2 h1p) not_false
  · exact heq
  · exact absurd (trunc_tile1d_disjoint hs hgt h2p h1) not_false

/-- C6 counterexample (the program's default 3 × 4 grid): the integer
`QRect` truncation makes every tile 341 wide — not the claimed exact
`1024/3` — and leaves the full-pixel canvas strip `340 ≤ y < 341` (rows end
at 170, 340, 511, and the third row starts at 341) covered by no tile, a
gap beyond floating-point tolerance. The point `(512, 340)` witnesses it. -/
theorem grid_truncation_gap :
    canvasContains ((512 : ℚ), 340) ∧
    (∀ r ∈ gridRects 3 4, ¬ r.contains ((512 : ℚ), 340)) ∧
    (∀ r ∈ gridRects 3 4, r.w ≠ collageWidth / ((3 : ℕ) : ℚ)) := by
  have hsy : Int.floor (collageHeight / ((4 : ℕ) : ℚ)) = 170 :=
    floor_rat_eq 170 _ (by norm_num [collageHeight, CollageAspectRatio])
      (by norm_num [collageHeight, CollageAspectRatio])
  refine ⟨?_, ?_, ?_⟩
  · show (0 : ℚ) ≤ 512 ∧ (512 : ℚ) < collageWidth ∧ (0 : ℚ) ≤ 340 ∧
      (340 : ℚ) < collageHeight
    norm_num [collageWidth, collageHeight, CollageAspectRatio]
  · intro r hr
    rw [gridRects_eq_map] at hr
    obtain ⟨i, hi, rfl⟩ := List.mem_map.mp hr
    intro hcont
    have hc : ((Int.floor (((i % 4 : ℕ) : ℚ) * (collageHeight / ((4 : ℕ) : ℚ))) : ℤ) : ℚ)
          ≤ 340 ∧
        (340 : ℚ) <
          ((Int.floor (((i % 4 : ℕ) : ℚ) * (collageHeight / ((4 : ℕ) : ℚ))) : ℤ) : ℚ)
            + ((Int.floor (collageHeight / ((4 : ℕ) : ℚ)) : ℤ) : ℚ) :=
      ⟨hcont.2.2.1, hcont.2.2.2⟩
    rw [hsy] at hc
    have hmod : i % 4 = 0 ∨ i % 4 = 1 ∨ i % 4 = 2 ∨ i % 4 = 3 := by omega
    rcases hmod with h | h | h | h <;> rw [h] at hc
    · have h0 : Int.floor (((0 : ℕ) : ℚ) * (collageHeight / ((4 : ℕ) : ℚ))) = 0 :=
        floor_rat_eq 0 _ (by norm_num [collageHeight, CollageAspectRatio])
          (by norm_num [collageHeight, CollageAspectRatio])
      rw [h0] at hc
      norm_num at hc
    · have h1 : Int.floor (((1 : ℕ) : ℚ) * (collageHeight / ((4 : ℕ) : ℚ))) = 170 :=
        floor_rat_eq 170 _ (by norm_num [collageHeight, CollageAspectRatio])
          (by norm_num [collageHeight, CollageAspectRatio])
      rw [h1] at hc
      norm_num at hc
    · have h2 : Int.floor (((2 : ℕ) : ℚ) * (collageHeight / ((4 : ℕ) : ℚ))) = 341 :=
        floor_rat_eq 341 _ (by norm_num [collageHeight, CollageAspectRatio])
          (by norm_num [collageHeight, CollageAspectRatio])
      rw [h2] at hc
      norm_num at hc
    · have h3 : Int.floor (((3 : ℕ) : ℚ) * (collageHeight / ((4 : ℕ) : ℚ))) = 512 :=
        floor_rat_eq 512 _ (by norm_num [collageHeight, CollageAspectRatio])
          (by norm_num [collageHeight, CollageAspectRatio])
      rw [h3] at hc
      norm_num at hc
  · intro r hr
    rw [gridRects_eq_map] at hr
    obtain ⟨i, hi, rfl⟩ := List.mem_map.mp hr
    show ((Int.floor (collageWidth / ((3 : ℕ) : ℚ)) : ℤ) : ℚ) ≠
      collageWidth / ((3 : ℕ) : ℚ)
    have hw : Int.floor (collageWidth / ((3 : ℕ) : ℚ)) = 341 :=
      floor_rat_eq 341 _ (by norm_num [collageWidth]) (by norm_num [collageWidth])
    rw [hw]
    norm_num [collageWidth]

/-- C6 (amended): for every uniform grid `numx × numy` with
`numx, numy ≥ 1`, the generator produces exactly `numx * numy` tile
rectangles, enumerated column-major (tile `i` sits in column `i / numy`,
row `i % numy`), each of integer width `trunc(W/numx)` and height
`trunc(H/numy)` at integer-truncated offsets (the `QRect` conversion), all
pairwise non-overlapping and contained in the Canvas rectangle — but their
union does not in general cover the Canvas: truncation can leave pixel-wide
uncovered strips, beyond floating-point tolerance. -/
theorem grid_partition (numx numy : ℕ) (hx : 1 ≤ numx) (hy : 1 ≤ numy) :
    (gridRects numx numy).length = numx * numy ∧
    gridRects numx numy = (List.range (numx * numy)).map (gridRectAt numx numy) ∧
    (∀ r ∈ gridRects numx numy,
      r.w = ((Int.floor (collageWidth / (numx : ℚ)) : ℤ) : ℚ) ∧
      r.h = ((Int.floor (collageHeight / (numy : ℚ)) : ℤ) : ℚ)) ∧
    (∀ r ∈ gridRects numx numy, ∀ p : ℚ × ℚ, r.contains p → canvasContains p) ∧
    (∀ p : ℚ × ℚ, ∀ i j : ℕ, i < numx * numy → j < numx * numy →
      (gridRectAt numx numy i).contains p → (gridRectAt numx numy j).contains p →
      i = j) := by
  have hxq : (0 : ℚ) < (numx : ℚ) := by exact_mod_cast hx
  have hyq : (0 : ℚ) < (numy : ℚ) := by exact_mod_cast hy
  have hW : (0 : ℚ) < collageWidth := by norm_num [collageWidth]
  have hH : (0 : ℚ) < collageHeight := by
    norm_num [collageHeight, CollageAspectRatio]
  have hsx : 0 < collageWidth / (numx : ℚ) := div_pos hW hxq
  have hsy : 0 < collageHeight / (numy : ℚ) := div_pos hH hyq
  refine ⟨?_, gridRects_eq_map numx numy, ?_, ?_, ?_⟩
  · rw [gridRects_eq_map]
    simp
  · intro r hr
    rw [gridRects_eq_map] at hr
    obtain ⟨i, hi, rfl⟩ := List.mem_map.mp hr
    exact ⟨rfl, rfl⟩
  · intro r hr p hcont
    rw [gridRects_eq_map] at hr
    obtain ⟨i, hi, rfl⟩ := List.mem_map.mp hr
    have hi2 : i < numx * numy := List.mem_range.mp hi
    have hcx : i / numy < numx := Nat.div_lt_of_lt_mul (by rwa [mul_comm] at hi2)
    have hcy : i % numy < numy := Nat.mod_lt _ (by omega)
    have hc2 :
        ((Int.floor (((i / numy : ℕ) : ℚ) * (collageWidth / (numx : ℚ))) : ℤ) : ℚ)
          ≤ p.1 ∧
        p.1 <
          ((Int.floor (((i / numy : ℕ) : ℚ) * (collageWidth / (numx : ℚ))) : ℤ) : ℚ)
            + ((Int.floor (collageWidth / (numx : ℚ)) : ℤ) : ℚ) ∧
        ((Int.floor (((i % numy : ℕ) : ℚ) * (collageHeight / (numy : ℚ))) : ℤ) : ℚ)
          ≤ p.2 ∧
        p.2 <
          ((Int.floor (((i % numy : ℕ) : ℚ) * (collageHeight / (numy : ℚ))) : ℤ) : ℚ)
            + ((Int.floor (collageHeight / (numy : ℚ)) : ℤ) : ℚ) := hcont
    obtain ⟨h1, h2, h3, h4⟩ := hc2
    have hcx1 : ((i / numy : ℕ) : ℚ) + 1 ≤ (numx : ℚ) := by
      exact_mod_cast Nat.succ_le_of_lt hcx
    have hcy1 : ((i % numy : ℕ) : ℚ) + 1 ≤ (numy : ℚ) := by
      exact_mod_cast Nat.succ_le_of_lt hcy
    have hfx0 : (0 : ℚ) ≤
        ((Int.floor (((i / numy : ℕ) : ℚ) * (collageWidth / (numx : ℚ))) : ℤ) : ℚ) := by
      exact_mod_cast Int.floor_nonneg.mpr
        (mul_nonneg (Nat.cast_nonneg _) hsx.le)
    have hfy0 : (0 : ℚ) ≤
        ((Int.floor (((i % numy : ℕ) : ℚ) * (collageHeight / (numy : ℚ))) : ℤ) : ℚ) := by
      exact_mod_cast Int.floor_nonneg.mpr
        (mul_nonneg (Nat.cast_nonneg _) hsy.le)
    show 0 ≤ p.1 ∧ p.1 < collageWidth ∧ 0 ≤ p.2 ∧ p.2 < collageHeight
    refine ⟨le_trans hfx0 h1, ?_, le_trans hfy0 h3, ?_⟩
    · calc p.1 <
            ((Int.floor (((i / numy : ℕ) : ℚ) * (collageWidth / (numx : ℚ))) : ℤ) : ℚ)
              + ((Int.floor (collageWidth / (numx : ℚ)) : ℤ) : ℚ) := h2
        _ ≤ ((i / numy : ℕ) : ℚ) * (collageWidth / (numx : ℚ))
              + collageWidth / (numx : ℚ) :=
            add_le_add (Int.floor_le _) (Int.floor_le _)
        _ = (((i / numy : ℕ) : ℚ) + 1) * (collageWidth / (numx : ℚ)) := by ring
        _ ≤ (numx : ℚ) * (collageWidth / (numx : ℚ)) :=
            mul_le_mul_of_nonneg_right hcx1 hsx.le
        _ = collageWidth := mul_div_cancel₀ collageWidth (ne_of_gt hxq)
    · calc p.2 <
            ((Int.floor (((i % numy : ℕ) : ℚ) * (collageHeight / (numy : ℚ))) : ℤ) : ℚ)
              + ((Int.floor (collageHeight / (numy : ℚ)) : ℤ) : ℚ) := h4
        _ ≤ ((i % numy : ℕ) : ℚ) * (collageHeight / (numy : ℚ))
              + collageHeight / (numy : ℚ) :=
            add_le_add (Int.floor_le _) (Int.floor_le _)
        _ = (((i % numy : ℕ) : ℚ) + 1) * (collageHeight / (numy : ℚ)) := by ring
        _ ≤ (numy : ℚ) * (collageHeight / (numy : ℚ)) :=
            mul_le_mul_of_nonneg_right hcy1 hsy.le
        _ = collageHeight := mul_div_cancel₀ collageHeight (ne_of_gt hyq)
  · intro p i j hi hj hci hcj
    have hciq :
        ((Int.floor (((i / numy : ℕ) : ℚ) * (collageWidth / (numx : ℚ))) : ℤ) : ℚ)
          ≤ p.1 ∧
        p.1 <
          ((Int.floor (((i / numy : ℕ) : ℚ) * (collageWidth / (numx : ℚ))) : ℤ) : ℚ)
            + ((Int.floor (collageWidth / (numx : ℚ)) : ℤ) : ℚ) ∧
        ((Int.floor (((i % numy : ℕ) : ℚ) * (collageHeight / (numy : ℚ))) : ℤ) : ℚ)
          ≤ p.2 ∧
        p.2 <
          ((Int.floor (((i % numy : ℕ) : ℚ) * (collageHeight / (numy : ℚ))) : ℤ) : ℚ)
            + ((Int.floor (collageHeight / (numy : ℚ)) : ℤ) : ℚ) := hci
    have hcjq :
        ((Int.floor (((j / numy : ℕ) : ℚ) * (collageWidth / (numx : ℚ))) : ℤ) : ℚ)
          ≤ p.1 ∧
        p.1 <
          ((Int.floor (((j / numy : ℕ) : ℚ) * (collageWidth / (numx : ℚ))) : ℤ) : ℚ)
            + ((Int.floor (collageWidth / (numx : ℚ)) : ℤ) : ℚ) ∧
        ((Int.floor (((j % numy : ℕ) : ℚ) * (collageHeight / (numy : ℚ))) : ℤ) : ℚ)
          ≤ p.2 ∧
        p.2 <
          ((Int.floor (((j % numy : ℕ) : ℚ) * (collageHeight / (numy : ℚ))) : ℤ) : ℚ)
            + ((Int.floor (collageHeight / (numy : ℚ)) : ℤ) : ℚ) := hcj
    obtain ⟨a1, a2, a3, a4⟩ := hciq
    obtain ⟨b1, b2, b3, b4⟩ := hcjq
    have hW : (0 : ℚ) < collageWidth := by norm_num [collageWidth]
    have hH : (0 : ℚ) < collageHeight := by
      norm_num [collageHeight, CollageAspectRatio]
    have hxq : (0 : ℚ) < (numx : ℚ) := by exact_mod_cast hx
    have hyq : (0 : ℚ) < (numy : ℚ) := by exact_mod_cast hy
    have hdx : i / numy = j / numy :=
      trunc_tile1d_unique (div_pos hW hxq).le a1 a2 b1 b2
    have hdy : i % numy = j % numy :=
      trunc_tile1d_unique (div_pos hH hyq).le a3 a4 b3 b4
    calc i = numy * (i / numy) + i % numy := (Nat.div_add_mod i numy).symm
      _ = numy * (j / numy) + j % numy := by rw [hdx, hdy]
      _ = j := Nat.div_add_mod j numy

/-- Witness for C6 (amended) at the 2 × 2 grid. -/
theorem grid_partition_witness :
    (1 ≤ 2) ∧ (1 ≤ 2) ∧
    ((gridRects 2 2).length = 2 * 2 ∧
     gridRects 2 2 = (List.range (2 * 2)).map (gridRectAt 2 2) ∧
     (∀ r ∈ gridRects 2 2,
       r.w = ((Int.floor (collageWidth / ((2 : ℕ) : ℚ)) : ℤ) : ℚ) ∧
       r.h = ((Int.floor (collageHeight / ((2 : ℕ) : ℚ)) : ℤ) : ℚ)) ∧
     (∀ r ∈ gridRects 2 2, ∀ p : ℚ × ℚ, r.contains p → canvasContains p) ∧
     (∀ p : ℚ × ℚ, ∀ i j : ℕ, i < 2 * 2 → j < 2 * 2 →
       (gridRectAt 2 2 i).contains p → (gridRectAt 2 2 j).contains p → i = j)) :=
  ⟨by norm_num, by norm_num, grid_partition 2 2 (by norm_num) (by norm_num)⟩

/- Cyclic photo-to-tile assignment. -/

/-- `addPhotos` pairs each rectangle with the file at the iterator's running
index, which advances modulo the file count. -/
lemma addPhotos_snd (files : List String) (hL : 0 < files.length) :
    ∀ (rs : List Rect) (k : ℕ), k < files.length →
      (addPhotos rs { i := k, l := files }).map Prod.snd =
        (List.range rs.length).map
          (fun j => files.getD ((k + j) % files.length) "") := by
  intro rs
  induction rs with
  | nil =>
      intro k hk
      rfl
  | cons r rs ih =>
      intro k hk
      have hstep : (k + 1) % files.length < files.length := Nat.mod_lt _ hL
      simp only [addPhotos, LoopIter.next, List.map_cons, List.length_cons]
      rw [ih ((k + 1) % files.length) hstep, List.range_succ_eq_map, List.map_cons,
        List.map_map]
      congr 1
      · rw [Nat.add_zero, Nat.mod_eq_of_lt hk]
      · apply List.map_congr_left
        intro j hj
        simp only [Function.comp]
        rw [Nat.mod_add_mod, show k + 1 + j = k + Nat.succ j by omega]

/-- `addPhotos` assigns files to the generated rectangles in generation
order, leaving the rectangles themselves untouched. -/
lemma addPhotos_fst (rs : List Rect) (it : LoopIter) :
    (addPhotos rs it).map Prod.fst = rs := by
  induction rs generalizing it with
  | nil => rfl
  | cons r rs ih => simp [addPhotos, ih]

/-- C7: for a nonempty file list of length `L` and any layout (any list of
generated tile rectangles, in particular every `createGridCollage` grid),
the file paired with the `i`-th generated rectangle is `files[i % L]`, so
layouts with more tiles than files reuse the files cyclically from the
first. -/
theorem photo_assignment_cyclic (rs : List Rect) (files : List String)
    (hne : files ≠ []) :
    (addPhotos rs { i := 0, l := files }).map Prod.fst = rs ∧
    (addPhotos rs { i := 0, l := files }).map Prod.snd =
      (List.range rs.length).map (fun j => files.getD (j % files.length) "") ∧
    ∀ numx numy : ℕ,
      (createGridCollage numx numy files).map Prod.snd =
        (List.range (gridRects numx numy).length).map
          (fun j => files.getD (j % files.length) "") := by
  have hL : 0 < files.length := List.length_pos.mpr hne
  refine ⟨addPhotos_fst rs _, ?_, ?_⟩
  · rw [addPhotos_snd files hL rs 0 hL]
    apply List.map_congr_left
    intro j hj
    rw [Nat.zero_add]
  · intro numx numy
    unfold createGridCollage
    rw [addPhotos_snd files hL _ 0 hL]
    apply List.map_congr_left
    intro j hj
    rw [Nat.zero_add]

/-- Witness for C7: three files on the 2 × 2 grid. -/
theorem photo_assignment_cyclic_witness :
    (["a", "b", "c"] : List String) ≠ [] ∧
    ((addPhotos (gridRects 2 2) { i := 0, l := ["a", "b", "c"] }).map Prod.fst
        = gridRects 2 2 ∧
     (addPhotos (gridRects 2 2) { i := 0, l := ["a", "b", "c"] }).map Prod.snd =
       (List.range (gridRects 2 2).length).map
         (fun j => (["a", "b", "c"] : List String).getD
           (j % (["a", "b", "c"] : List String).length) "") ∧
     ∀ numx numy : ℕ,
       (createGridCollage numx numy ["a", "b", "c"]).map Prod.snd =
         (List.range (gridRects numx numy).length).map
           (fun j => (["a", "b", "c"] : List String).getD
             (j % (["a", "b", "c"] : List String).length) "")) :=
  ⟨by simp, photo_assignment_cyclic (gridRects 2 2) ["a", "b", "c"] (by simp)⟩
